import Mathlib

/-!
Shallow embedding of the tick-data pipeline of the `stock-analysis`
repository (files `stock_analysis/analysis/tick_cleaner.py`,
`tick_flow.py`, `tick_aggregator.py`, `tick_anomaly.py`).

Conventions of the embedding:
* pandas numeric cells are modelled as `Option ℚ`: `none` stands for a
  missing or unparseable value (`NaN` after `pd.to_numeric(errors="coerce")`),
  `some q` for a parsed finite number.  All arithmetic the claims touch is
  order/field arithmetic, so exact rationals stand in for Python floats.
* A pandas `DataFrame` of tick rows is a list of records together with
  table-level booleans saying which canonical columns were identified after
  the `col_map` rename in `tick_cleaner.py:39-57` (one boolean per canonical
  column; the synonym dictionary itself is not re-modelled, the booleans
  state its outcome).
* `Series.sort_values` is modelled with the stable `List.insertionSort`.
* `Series.quantile(q)` / `np.percentile(xs, 100*q)` (linear interpolation)
  are modelled by `quantileLinear`.
* Code that raises is modelled in `Except`; everything else is total.
-/

namespace StockAnalysis

/-- A wall-clock time of day (the pipeline is single-day: dates are
constant, so only the clock part of a timestamp matters to every
branch the code takes). -/
structure Time where
  h : Nat
  m : Nat
  s : Nat
deriving DecidableEq

/-- Minutes since midnight; comparisons of `dt.strftime("%H:%M")` strings
("09:30" ≤ t ≤ "11:30" and the like) coincide with comparisons of this
value for zero-padded two-digit fields. -/
def Time.hm (t : Time) : Nat := t.h * 60 + t.m

/-- Seconds since midnight; the sort key of `sort_values("时间")` within a
single day. -/
def Time.secs (t : Time) : Nat := t.h * 3600 + t.m * 60 + t.s

/-- The three-way direction enumeration 买盘 / 卖盘 / 中性盘. -/
inductive Direction where
  | buy
  | sell
  | neutral
deriving DecidableEq

/-- One cell of the raw 性质 (nature) column, abstracted to the equivalence
classes that `tick_cleaner.py:123-161` distinguishes:
* `na`: NA, empty, or one of the literal junk tokens `"nan"/"NaN"/"None"/"<NA>"/""`
  that the `nature_map` sends to `pd.NA`;
* `token d`: a token the `nature_map` sends to 买盘/卖盘/中性盘
  (e.g. "买", "B", "s", "中性");
* `numeric q`: an unmapped string that `pd.to_numeric` parses as the number `q`;
* `other hasBuy hasSell`: any other string, recording whether it contains the
  characters 买 and/or 卖. -/
inductive NatureCell where
  | na
  | token (d : Direction)
  | numeric (q : ℚ)
  | other (hasBuy : Bool) (hasSell : Bool)
deriving DecidableEq

/-- Normalisation of one nature cell, `tick_cleaner.py:123-161`:
map the token table; numeric values are sign-classified (>0 买盘, <0 卖盘,
=0 中性盘); remaining unknown tokens containing 卖 become 卖盘 (line 158 runs
after line 157, so 卖 wins over 买 for tokens containing both), else 买 become
买盘; everything else becomes NA (line 161). -/
def normalizeNature : NatureCell → Option Direction
  | .na => none
  | .token d => some d
  | .numeric q =>
      if q > 0 then some .buy else if q < 0 then some .sell else some .neutral
  | .other hasBuy hasSell =>
      if hasSell then some .sell else if hasBuy then some .buy else none

/-- One raw input row after column reconciliation: each canonical column's
cell, already coerced by `_to_numeric` (`none` = NaN). -/
structure RawRow where
  time : Option Time
  price : Option ℚ
  vol : Option ℚ
  amount : Option ℚ
  nature : NatureCell
  delta : Option ℚ
deriving DecidableEq

/-- A raw batch: the rows plus, per canonical column, whether the rename of
`tick_cleaner.py:39-57` identified such a column (时间 / 成交价格 / 成交量 /
成交额-成交金额 / 性质 / 价格变动-price_change-price_delta). -/
structure RawBatch where
  rows : List RawRow
  hasTime : Bool
  hasPrice : Bool
  hasVol : Bool
  hasAmount : Bool
  hasNature : Bool
  hasDelta : Bool
deriving DecidableEq

/-- A working row of the cleaner after typing (`df_clean` row):
price > 0, share volume after the ×100 lot conversion, backfilled
成交额(元), normalised 性质 plus its provenance 性质来源, the optional raw
price-delta column, and the final 价格变化率 / 是否极端跳变 fields. -/
structure WRow where
  time : Time
  price : ℚ
  volHands : Option ℚ
  vol : ℚ
  amount : ℚ
  nature : Option Direction
  natureSource : String
  delta : Option ℚ
  rate : Option ℚ
  jump : Bool
deriving DecidableEq

/-- Row-level typing of the cleaner, `tick_cleaner.py:75-171`:
drop rows whose price is unparseable or ≤ 0 (line 83); when a volume column
exists drop rows with unparseable or negative volume and convert lots to
shares ×100 (lines 84-87), otherwise volume is 0 (line 92); resolve
成交额(元) from the turnover column when present, backfilling missing or
non-positive values from price × share-volume (lines 94-113); normalise the
nature cell when a nature column exists (lines 122-162; otherwise NA,
line 121); 性质来源 starts as "raw" (line 171). -/
def buildRow (b : RawBatch) (t : Time) (r : RawRow) : Option WRow :=
  match r.price with
  | none => none
  | some p =>
    if p > 0 then
      match (if b.hasVol then (match r.vol with
              | none => none
              | some v0 => if v0 ≥ 0 then some (some v0, v0 * 100) else none)
             else some (none, (0 : ℚ))) with
      | none => none
      | some (vh, v) =>
        let computed := p * v
        let a0 := if b.hasAmount then r.amount else none
        let amount := match a0 with
          | none => computed
          | some x => if x ≤ 0 ∧ computed > 0 then computed else x
        let nat := if b.hasNature then normalizeNature r.nature else none
        some ⟨t, p, vh, v, amount, nat, "raw",
              (if b.hasDelta then r.delta else none), none, false⟩
    else none

/-- Rows that survive the time parse (`dropna(subset=["时间"])`, line 71) and
the price/volume filters. -/
def filteredRows (b : RawBatch) : List WRow :=
  b.rows.filterMap (fun r => r.time.bind (fun t => buildRow b t r))

/-- `df_clean.sort_values("时间")`, line 170. -/
def sortedRows (b : RawBatch) : List WRow :=
  List.insertionSort (fun x y => x.time.secs ≤ y.time.secs) (filteredRows b)

/-- Fraction of rows whose 性质 is one of the three valid labels
(`tick_cleaner.py:165` and `175`; 0.0 for an empty table). -/
def validFracQ (rows : List WRow) : ℚ :=
  if rows.length = 0 then 0
  else (rows.countP (fun r => r.nature.isSome) : ℚ) / (rows.length : ℚ)

/-- Linear-interpolation quantile of a list, the semantics of
`Series.quantile(q)` and `np.percentile(xs, 100*q)`: with the values sorted
ascending and `p = q*(n-1)`, interpolate between the entries at `⌊p⌋` and
`⌊p⌋+1`.  Returns 0 on the empty list (callers guard this case). -/
def quantileLinear (q : ℚ) (xs : List ℚ) : ℚ :=
  if xs.isEmpty then 0
  else
    let ys := List.insertionSort (fun a b => a ≤ b) xs
    let p : ℚ := q * ((xs.length : ℚ) - 1)
    let f : Nat := p.floor.toNat
    let g : ℚ := p - (f : ℚ)
    let a := ys.getD f 0
    let b := ys.getD (f + 1) a
    a + g * (b - a)

/-- `Series.pct_change()` over a price list: `none` for the first row,
`p_i / p_(i-1) - 1` afterwards. -/
def pctGo (prev : ℚ) : List ℚ → List (Option ℚ)
  | [] => []
  | q :: qs => some (q / prev - 1) :: pctGo q qs

/-- `pct_change` of a whole column. -/
def pctList : List ℚ → List (Option ℚ)
  | [] => []
  | p :: ps => none :: pctGo p ps

/-- The non-NaN absolute percent changes of a row list's prices. -/
def absPcts (rows : List WRow) : List ℚ :=
  (pctList (rows.map (fun r => r.price))).filterMap (fun o => o.map (fun c => |c|))

/-- The adaptive inference threshold `max(0.0001, abs_change.quantile(0.3))`
of `tick_cleaner.py:200-205` (a NaN quantile of an empty distribution is
replaced by 0 before the max). -/
def inferThreshold (rows : List WRow) : ℚ :=
  max (1 / 10000) (quantileLinear (3 / 10) (absPcts rows))

/-- Price-momentum direction inference, `tick_cleaner.py:199-209` (also
reused by the degenerate pass, lines 238-246): 中性盘 by default (and for the
first row, whose pct-change is NaN), 买盘 above the threshold, 卖盘 below its
negation. -/
def inferDirPrice (rows : List WRow) : List Direction :=
  let thr := inferThreshold rows
  (pctList (rows.map (fun r => r.price))).map (fun o =>
    match o with
    | some c => if c > thr then .buy else if c < -thr then .sell else .neutral
    | none => .neutral)

/-- Price-delta-column direction inference, `tick_cleaner.py:190-196` and
`232-237`: the delta is `to_numeric(...).fillna(0)`, sign-thresholded at 0. -/
def inferDirDelta (rows : List WRow) : List Direction :=
  rows.map (fun r =>
    let d := r.delta.getD 0
    if d > 0 then Direction.buy else if d < 0 then Direction.sell else Direction.neutral)

/-- Write the inferred direction onto the rows whose 性质 is missing,
leaving rows with a valid label untouched (`tick_cleaner.py:195-196` /
`210-211`: assignment through `missing_mask`). -/
def applyMissing (rows : List WRow) (dirs : List Direction) : List WRow :=
  List.zipWith (fun r d =>
    if r.nature.isSome then r
    else { r with nature := some d, natureSource := "inferred" }) rows dirs

/-- Overwrite every row's direction (`tick_cleaner.py:248-249`, the
degenerate full re-inference). -/
def applyAll (rows : List WRow) (dirs : List Direction) : List WRow :=
  List.zipWith (fun r d =>
    { r with nature := some d, natureSource := "inferred_all" }) rows dirs

/-- The partial-inference stage, `tick_cleaner.py:183-217`: when some 性质
is missing, infer it from the price-delta column if one exists, else from
price momentum; `inferred_ratio` is the missing fraction.  Returns the rows,
the ratio of inferred labels, and the flags this stage appends. -/
def inferredStage (b : RawBatch) : List WRow × ℚ × List String :=
  let rows := sortedRows b
  let miss := rows.countP (fun r => r.nature.isNone)
  if miss = 0 then (rows, 0, [])
  else if b.hasDelta then
    (applyMissing rows (inferDirDelta rows), (miss : ℚ) / (rows.length : ℚ),
      ["inferred_nature_price_delta"])
  else
    (applyMissing rows (inferDirPrice rows), (miss : ℚ) / (rows.length : ℚ),
      ["inferred_threshold_dynamic", "inferred_nature"])

/-- The degenerate full re-inference, `tick_cleaner.py:221-251`: only when
the table is non-empty, nothing was inferred before (`inferred_ratio == 0.0`)
and there is not a single 买盘/卖盘 row, every label is re-inferred and the
ratio becomes 1.0. -/
def degenerateStage (b : RawBatch) (rows : List WRow) (r0 : ℚ) :
    List WRow × ℚ × List String :=
  if rows.length ≠ 0 ∧ r0 = 0 ∧
      rows.countP (fun r => r.nature = some .buy ∨ r.nature = some .sell) = 0 then
    let dirs := if b.hasDelta then inferDirDelta rows else inferDirPrice rows
    (applyAll rows dirs, 1, ["nature_all_neutral_inferred"])
  else (rows, r0, [])

/-- The row set entering the session split (output of the degenerate
stage). -/
def preSessionRows (b : RawBatch) : List WRow :=
  (degenerateStage b (inferredStage b).1 (inferredStage b).2.1).1

/-- Call-auction window test, `tick_cleaner.py:254-255`:
`"09:15" <= strftime("%H:%M") <= "09:25"`. -/
def isAuctionT (t : Time) : Bool := 555 ≤ t.hm && t.hm ≤ 565

/-- Regular-session test, `tick_cleaner.py:259-263`: morning 09:30–11:30 or
afternoon 13:00–15:00, by minute. -/
def inSessionT (t : Time) : Bool :=
  (570 ≤ t.hm && t.hm ≤ 690) || (780 ≤ t.hm && t.hm ≤ 900)

/-- Strict close filter, `tick_cleaner.py:269-275`: keep `hour < 15` or
exactly 15:00:00. -/
def before1500 (t : Time) : Bool :=
  t.h < 15 || (t.h == 15 && t.m == 0 && t.s == 0)

/-- The auction table, `tick_cleaner.py:255-256`. -/
def auctionRows (rows : List WRow) : List WRow :=
  rows.filter (fun r => isAuctionT r.time)

/-- The main table after the session filters, `tick_cleaner.py:257-275`
(the strict close filter only runs on a non-empty frame, line 265). -/
def mainRows (rows : List WRow) : List WRow :=
  let m1 := rows.filter (fun r => !isAuctionT r.time)
  let m2 := m1.filter (fun r => inSessionT r.time)
  if m2.isEmpty then m2 else m2.filter (fun r => before1500 r.time)

/-- Extreme-jump tagging, `tick_cleaner.py:281-283`: 价格变化率 is the
absolute pct-change (NaN on the first row), 是否极端跳变 is `rate > 5`
(False where NaN). -/
def jumpStage (rows : List WRow) : List WRow :=
  if rows.isEmpty then rows
  else
    List.zipWith (fun r o =>
      { r with rate := o.map (fun c => |c|),
               jump := (o.map (fun c => decide (|c| > 5))).getD false })
      rows (pctList (rows.map (fun r => r.price)))

/-- The cleaner's return value `(df_clean, quality_flags, auction_df,
inferred_ratio)`. -/
structure CleanResult where
  main : List WRow
  flags : List String
  auction : List WRow
  inferredFrac : ℚ
deriving DecidableEq

/-- `TickDataCleaner.clean`, `tick_cleaner.py:17-286`, assembled from the
stages above.  Flags appear in source order: `empty_tick` / `missing_time` /
`invalid_time` / `missing_price` early exits (lines 21-22, 59-60, 72-73,
79-81), volume flags (88-91), 性质 flags (120, 164-168, 179-181), inference
flags (198, 206, 213), the degenerate flag (251), and `non_trading_time`
(278-279).  (`missing_amount`, line 115, is unreachable: lines 94-100 always
create the 成交额(元) column first.) -/
def clean (b : RawBatch) : CleanResult :=
  if b.rows.isEmpty then ⟨[], ["empty_tick"], [], 0⟩
  else if !b.hasTime then ⟨[], ["missing_time"], [], 0⟩
  else
    let f1 : List String :=
      if b.rows.countP (fun r => r.time.isSome) < b.rows.length
      then ["invalid_time"] else []
    if !b.hasPrice then ⟨[], f1 ++ ["missing_price"], [], 0⟩
    else
      let rows0 := filteredRows b
      let fVol : List String :=
        if b.hasVol then ["volume_assumed_hands", "volume_unit_shares"]
        else ["missing_volume"]
      let fNat : List String :=
        if !b.hasNature then ["missing_nature"]
        else if rows0.isEmpty then []
        else if validFracQ rows0 < 1 / 2 then ["nature_low_quality"] else []
      let fLow : List String :=
        if validFracQ rows0 < 1 / 2 then ["nature_low_quality_infer"] else []
      let s1 := inferredStage b
      let s2 := degenerateStage b s1.1 s1.2.1
      let main := mainRows s2.1
      let fSess : List String := if main.isEmpty then ["non_trading_time"] else []
      ⟨jumpStage main,
       f1 ++ fVol ++ fNat ++ fLow ++ s1.2.2 ++ s2.2.2 ++ fSess,
       auctionRows s2.1, s2.2.1⟩

/-! ## Flow classifier, `tick_flow.py` -/

/-- A row of the table handed to `TickFlowAnalyzer.analyze` (and of its
`processed_df` output): the cleaner's columns plus the analyzer-added 方向,
净流入额, `minute_threshold` and `is_large_order` columns. -/
structure FRow where
  time : Option Time
  price : Option ℚ
  nature : Option Direction
  amount : Option ℚ
  vol : ℚ
  dir : Int
  net : ℚ
  minThr : ℚ
  isLarge : Bool
deriving DecidableEq

/-- A table for the analyzer: rows plus which columns exist
(时间 / 成交价格 / 性质 / 成交额(元) / 成交量 / `minute_threshold`). -/
structure FTable where
  rows : List FRow
  hasTime : Bool
  hasPrice : Bool
  hasNature : Bool
  hasAmount : Bool
  hasVol : Bool
  hasMinThr : Bool
deriving DecidableEq

/-- The numeric turnover of a row (成交额(元) after
`to_numeric(...).fillna(0)`, `tick_flow.py:52`). -/
def amtOf (r : FRow) : ℚ := r.amount.getD 0

/-- `tick_flow.py:29-31`: a missing 性质 column is filled with 中性盘. -/
def natureStage (t : FTable) : List FRow :=
  if t.hasNature then t.rows
  else t.rows.map (fun r => { r with nature := some .neutral })

/-- The `direction_map` of `tick_flow.py:33`: 买盘 ↦ 1, 卖盘 ↦ -1,
中性盘 ↦ 0, anything else ↦ NA. -/
def dirMap : Option Direction → Option Int
  | some .buy => some 1
  | some .sell => some (-1)
  | some .neutral => some 0
  | none => none

/-- `tick_flow.py:34,41`: mapped direction with NA filled by 0. -/
def dirStage (t : FTable) : List FRow :=
  (natureStage t).map (fun r => { r with dir := (dirMap r.nature).getD 0 })

/-- `Series.diff().fillna(0)` of a price column (`tick_flow.py:43`): 0 for
the first row and wherever either neighbour is NaN. -/
def diffGo (prev : Option ℚ) : List (Option ℚ) → List ℚ
  | [] => []
  | q :: qs =>
      (match prev, q with
       | some a, some c => c - a
       | _, _ => 0) :: diffGo q qs

/-- `diff().fillna(0)` of a whole column. -/
def diffList : List (Option ℚ) → List ℚ
  | [] => []
  | p :: ps => 0 :: diffGo p ps

/-- `tick_flow.py:42-46`: when every mapped direction is 0 and a price
column exists, fall back to the sign of consecutive price differences
(rows with zero difference keep their 0). -/
def fallbackStage (t : FTable) : List FRow :=
  let rows := dirStage t
  if ((rows.map (fun r => r.dir.natAbs)).sum = 0 ∧ t.hasPrice) then
    List.zipWith (fun r d =>
      if (0 : ℚ) < d then { r with dir := 1 }
      else if d < 0 then { r with dir := -1 } else r)
      rows (diffList (rows.map (fun r => r.price)))
  else rows

/-- `tick_flow.py:48-54`: numeric turnover (0 when the column is absent)
and the per-record net inflow 净流入额 = turnover × direction. -/
def amountStage (t : FTable) : List FRow :=
  (fallbackStage t).map (fun r =>
    let a := if t.hasAmount then r.amount.getD 0 else 0
    { r with amount := some a, net := a * (r.dir : ℚ) })

/-- Summed turnover of the rows of direction `d` (`tick_flow.py:60-62`). -/
def sumAmtDir (rows : List FRow) (d : Int) : ℚ :=
  ((rows.filter (fun r => decide (r.dir = d))).map amtOf).sum

/-- `tick_flow.py:64-67`: order-flow imbalance with the `denom > 0` zero
guard. -/
def ofiOfSums (buyA sellA : ℚ) : ℚ :=
  if buyA + sellA > 0 then (buyA - sellA) / (buyA + sellA) else 0

/-- The day-level large-order threshold, `tick_flow.py:76-81`:
`max(large_order_min, np.percentile(amounts, P))`, or the configured
minimum alone for an empty table. -/
def dayThreshold (perc minA : ℚ) (rows : List FRow) : ℚ :=
  if rows.isEmpty then minA
  else max minA (quantileLinear (perc / 100) (rows.map amtOf))

/-- The amounts of the rows sharing a given minute (`groupby("minute")`
group of `tick_flow.py:85-90`; the minute key is `dt.floor("min")`, within
one day the pair hour:minute). -/
def minuteAmts (rows : List FRow) (k : Nat) : List ℚ :=
  (rows.filter (fun r => r.time.map Time.hm = some k)).map amtOf

/-- The per-minute threshold of `tick_flow.py:85-90`:
that minute's `quantile(P/100)` clipped below at `large_order_min`. -/
def minuteThr (perc minA : ℚ) (rows : List FRow) (k : Nat) : ℚ :=
  max minA (quantileLinear (perc / 100) (minuteAmts rows k))

/-- Early-session test of `tick_flow.py:97-98`:
`"09:30" <= strftime("%H:%M") <= "10:30"`. -/
def isEarly (t : Time) : Bool := 570 ≤ t.hm && t.hm ≤ 630

/-- Claim-side statement of the adaptive per-record threshold, phrased
from the spec: the Pth percentile of the record's own minute's per-record
turnover, floored at the configured minimum, and multiplied by 1.2 when
the record's clock time lies in 09:30–10:30. -/
def specMinuteThreshold (perc minA : ℚ) (rows : List FRow) (tt : Time) : ℚ :=
  max minA (quantileLinear (perc / 100)
      ((rows.filter (fun r => r.time.map Time.hm = some tt.hm)).map amtOf)) *
    (if 570 ≤ tt.hm ∧ tt.hm ≤ 630 then 12 / 10 else 1)

/-- Marking of one row in the timestamped branch of `tick_flow.py:83-100`:
store its minute's threshold and compare the turnover against it, ×1.2 in
the early session.  A row whose own timestamp cell is NaT gets no minute
group (its threshold is NaN and `>=` is False). -/
def largeMarkT (perc minA : ℚ) (rows : List FRow) (r : FRow) : FRow :=
  match r.time with
  | none => { r with minThr := 0, isLarge := false }
  | some tt =>
    { r with minThr := minuteThr perc minA rows tt.hm,
             isLarge := decide (amtOf r ≥
               minuteThr perc minA rows tt.hm * (if isEarly tt then 6 / 5 else 1)) }

/-- `tick_flow.py:83-102`: per-minute thresholds and the `is_large_order`
flag when a 时间 column exists, otherwise the day-level threshold. -/
def largeStage (perc minA : ℚ) (t : FTable) : List FRow :=
  if t.hasTime then
    (amountStage t).map (largeMarkT perc minA (amountStage t))
  else
    (amountStage t).map (fun r =>
      { r with isLarge := decide (amtOf r ≥ dayThreshold perc minA (amountStage t)) })

/-- The `summary` dict of `tick_flow.py:119-142`. -/
structure Summary where
  tradeCount : Nat
  buyCount : Nat
  sellCount : Nat
  neutralCount : Nat
  buyAmount : ℚ
  sellAmount : ℚ
  neutralAmount : ℚ
  netInflow : ℚ
  buyFrac : ℚ
  sellFrac : ℚ
  ofi : ℚ
  vwap : ℚ
  totalTurnover : ℚ
  largeOrderThreshold : ℚ
  largeOrderThresholdEarly : ℚ
  largeOrderCount : Nat
  largeBuyAmount : ℚ
  largeSellAmount : ℚ
  largeNetInflow : ℚ
  retailBuyAmount : ℚ
  retailSellAmount : ℚ
  retailNetInflow : ℚ
deriving DecidableEq

/-- The dict returned by `analyze` (`tick_flow.py:145-150`); `summary` is
`none` for the empty-input sentinel `{}`. -/
structure AResult where
  summary : Option Summary
  largeOrders : List FRow
  largeRatios : List ℚ
  processed : FTable
  flags : List String
deriving DecidableEq

/-- The quality flags of a non-empty `analyze` run, in source order
(`tick_flow.py:31,37,40,46,49,74`). -/
def analyzeFlags (t : FTable) : List String :=
  let n := t.rows.length
  let naCount := (natureStage t).countP (fun r => (dirMap r.nature).isNone)
  let naFrac : ℚ := (naCount : ℚ) / (n : ℚ)
  (if t.hasNature then [] else ["missing_nature"]) ++
  (if naFrac > 1 / 10 then ["direction_na_high"] else []) ++
  (if naFrac = 1 then ["direction_all_na"] else []) ++
  (if ((dirStage t).map (fun r => r.dir.natAbs)).sum = 0 ∧ t.hasPrice
   then ["direction_fallback_price_change"] else []) ++
  (if t.hasAmount then [] else ["missing_amount"]) ++
  (if t.hasVol && decide ((t.rows.map (fun r => r.vol)).sum > 0) then []
   else ["missing_volume"])

/-- The summary of a non-empty `analyze` run, `tick_flow.py:56-142`. -/
def summaryOf (perc minA : ℚ) (t : FTable) : Summary :=
  let rows := amountStage t
  let buyA := sumAmtDir rows 1
  let sellA := sumAmtDir rows (-1)
  let neutralA := sumAmtDir rows 0
  let denom := buyA + sellA
  let total := (rows.map amtOf).sum
  let sumVol := (rows.map (fun r => r.vol)).sum
  let thr := dayThreshold perc minA rows
  let large := (largeStage perc minA t).filter (fun r => r.isLarge)
  let largeBuy := sumAmtDir large 1
  let largeSell := sumAmtDir large (-1)
  { tradeCount := t.rows.length
    buyCount := rows.countP (fun r => decide (r.dir = 1))
    sellCount := rows.countP (fun r => decide (r.dir = -1))
    neutralCount := rows.countP (fun r => decide (r.dir = 0))
    buyAmount := buyA
    sellAmount := sellA
    neutralAmount := neutralA
    netInflow := buyA - sellA
    buyFrac := if denom > 0 then buyA / denom else 0
    sellFrac := if denom > 0 then sellA / denom else 0
    ofi := ofiOfSums buyA sellA
    vwap := if t.hasVol && decide (sumVol > 0) then total / sumVol else 0
    totalTurnover := total
    largeOrderThreshold := thr
    largeOrderThresholdEarly := thr * (6 / 5)
    largeOrderCount := large.length
    largeBuyAmount := largeBuy
    largeSellAmount := largeSell
    largeNetInflow := largeBuy - largeSell
    retailBuyAmount := buyA - largeBuy
    retailSellAmount := sellA - largeSell
    retailNetInflow := (buyA - largeBuy) - (sellA - largeSell) }

/-- The result record of a non-empty, non-raising `analyze` run. -/
def analyzeCore (perc minA : ℚ) (t : FTable) : AResult :=
  let rows := largeStage perc minA t
  let large := rows.filter (fun r => r.isLarge)
  let total := ((amountStage t).map amtOf).sum
  let avg := total / (t.rows.length : ℚ)
  { summary := some (summaryOf perc minA t)
    largeOrders := large
    largeRatios := if avg > 0 then large.map (fun r => amtOf r / avg)
                   else large.map (fun _ => (0 : ℚ))
    processed :=
      { rows := rows
        hasTime := t.hasTime
        hasPrice := t.hasPrice
        hasNature := true
        hasAmount := true
        hasVol := t.hasVol
        hasMinThr := t.hasTime || t.hasMinThr }
    flags := analyzeFlags t }

/-- `TickFlowAnalyzer.analyze`, `tick_flow.py:17-150`.  An empty input
returns the documented empty sentinel (lines 18-24).  When the input
already carries a `minute_threshold` column and a 时间 column, the merge at
line 91 suffixes both copies to `minute_threshold_x/_y`, so the column
lookup at line 99 raises `KeyError` — modelled as `Except.error`. -/
def analyze (perc minA : ℚ) (t : FTable) : Except String AResult :=
  if t.rows.isEmpty then
    .ok { summary := none, largeOrders := [], largeRatios := [],
          processed := { rows := [], hasTime := false, hasPrice := false,
                         hasNature := false, hasAmount := false,
                         hasVol := false, hasMinThr := false },
          flags := ["empty_tick"] }
  else if t.hasTime && t.hasMinThr then .error "KeyError: minute_threshold"
  else .ok (analyzeCore perc minA t)

/-! ## Window aggregator, `tick_aggregator.py` -/

/-- One row of an aggregated window table (`tick_aggregator.py:43-127`). -/
structure Bar where
  key : Nat
  timeWindow : String
  turnover : ℚ
  volume : ℚ
  netInflow : ℚ
  buyAmount : ℚ
  sellAmount : ℚ
  largeOrderCount : Nat
  tradeCount : Nat
  priceOpen : Option ℚ
  priceHigh : Option ℚ
  priceLow : Option ℚ
  priceClose : Option ℚ
  ofi : ℚ
  vwap : ℚ
  rangePct : ℚ
deriving DecidableEq

/-- Maximum of a price list (pandas `ohlc` high, NaN skipped). -/
def qmax : List ℚ → Option ℚ :=
  List.foldr (fun x acc => match acc with
    | none => some x
    | some y => some (max x y)) none

/-- Minimum of a price list (pandas `ohlc` low, NaN skipped). -/
def qmin : List ℚ → Option ℚ :=
  List.foldr (fun x acc => match acc with
    | none => some x
    | some y => some (min x y)) none

/-- Zero-padded two-digit rendering, for `strftime("%H:%M")`. -/
def pad2 (n : Nat) : String := if n < 10 then "0" ++ toString n else toString n

/-- The `time_window` label of a bucket starting at the given minute of the
day (`tick_aggregator.py:127`). -/
def fmtHM (mins : Nat) : String := pad2 (mins / 60) ++ ":" ++ pad2 (mins % 60)

/-- The rows of the table that carry a parseable timestamp, sorted by it
(`tick_aggregator.py:18-20`). -/
def aggRows (t : FTable) : List (Time × FRow) :=
  List.insertionSort (fun a b => a.1.secs ≤ b.1.secs)
    (t.rows.filterMap (fun r => r.time.map (fun tt => (tt, r))))

/-- The `resample(f"{w}min")` bucket of a timestamp (origin: start of day),
as an index of w-minute buckets since midnight. -/
def bucketKey (w : Nat) (tt : Time) : Nat := tt.hm / w

/-- One aggregated bar, `tick_aggregator.py:43-124`: sums of turnover /
volume / net inflow / buy / sell amounts, large-order count, OHLC of the
price, trade count, and the guarded OFI / VWAP / range% derivations. -/
def barOf (w : Nat) (rows : List (Time × FRow)) (k : Nat) : Bar :=
  let g := rows.filter (fun p => decide (bucketKey w p.1 = k))
  let turnover := (g.map (fun p => amtOf p.2)).sum
  let volume := (g.map (fun p => p.2.vol)).sum
  let net := (g.map (fun p => p.2.net)).sum
  let buyA := (g.map (fun p => if p.2.dir = 1 then amtOf p.2 else 0)).sum
  let sellA := (g.map (fun p => if p.2.dir = -1 then amtOf p.2 else 0)).sum
  let prices := g.filterMap (fun p => p.2.price)
  let hi := qmax prices
  let lo := qmin prices
  let vwap := if volume = 0 then 0 else turnover / volume
  { key := k
    timeWindow := fmtHM (k * w)
    turnover := turnover
    volume := volume
    netInflow := net
    buyAmount := buyA
    sellAmount := sellA
    largeOrderCount := g.countP (fun p => p.2.isLarge)
    tradeCount := g.length
    priceOpen := prices.head?
    priceHigh := hi
    priceLow := lo
    priceClose := prices.getLast?
    ofi := if buyA + sellA = 0 then 0 else (buyA - sellA) / (buyA + sellA)
    vwap := vwap
    rangePct :=
      match hi, lo with
      | some h2, some l2 => (if vwap = 0 then 0 else (h2 - l2) / vwap) * 100
      | _, _ => 0 }

/-- `TickAggregator.aggregate` for one window width,
`tick_aggregator.py:13-131`: empty output when the table is empty or has no
时间 column; otherwise one bar per non-empty w-minute bucket (`agg_df =
agg_df[agg_df["trade_count"] > 0]` drops exactly the buckets no row falls
into). -/
def aggregate (t : FTable) (w : Nat) : List Bar :=
  if t.rows.isEmpty || !t.hasTime then []
  else (((aggRows t).map (fun p => bucketKey w p.1)).dedup).map (barOf w (aggRows t))

/-! ## Anomaly detector, `tick_anomaly.py` -/

/-- The dict returned by `TickAnomalyDetector.detect`: the burst windows
(time label, trade count, net inflow) and the free-text notes. -/
structure DetectResult where
  burstWindows : List (String × Nat × ℚ)
  notes : List String
deriving DecidableEq

/-- The burst rows of `tick_anomaly.py:19-21`: windows whose trade count
reaches the 95th percentile of trade counts. -/
def burstList (wdf : List Bar) : List Bar :=
  wdf.filter (fun b2 => decide ((b2.tradeCount : ℚ) ≥
    quantileLinear (95 / 100) (wdf.map (fun z => (z.tradeCount : ℚ)))))

/-- The spike rows of `tick_anomaly.py:34-36`: windows whose absolute net
inflow reaches the 95th percentile of absolute net inflows. -/
def spikeList (wdf : List Bar) : List Bar :=
  wdf.filter (fun b2 => decide (|b2.netInflow| ≥
    quantileLinear (95 / 100) (wdf.map (fun z => |z.netInflow|))))

/-- `TickAnomalyDetector.detect`, `tick_anomaly.py:12-42`: empty sentinel
when either table is empty; otherwise the burst windows (with one note
naming the first), and one more note naming the first spike window. -/
def detect (tick : List FRow) (wdf : List Bar) : DetectResult :=
  if tick.isEmpty || wdf.isEmpty then ⟨[], []⟩
  else
    let bw := (burstList wdf).map (fun b2 => (b2.timeWindow, b2.tradeCount, b2.netInflow))
    let n1 : List String :=
      match bw with
      | [] => []
      | x :: _ => ["成交密度高峰出现在 " ++ x.1]
    let n2 : List String :=
      match spikeList wdf with
      | [] => []
      | y :: _ => ["净流入突变发生于 " ++ y.timeWindow]
    ⟨bw, n1 ++ n2⟩

/-! ## Concrete instances used by witnesses and counterexamples -/

/-- A batch with a row but no identifiable timestamp column. -/
def B1a : RawBatch :=
  { rows := [{ time := some ⟨9, 31, 0⟩, price := some 10, vol := none,
               amount := none, nature := .na, delta := none }]
    hasTime := false, hasPrice := true, hasVol := false, hasAmount := false,
    hasNature := false, hasDelta := false }

/-- A batch with a timestamp column but no identifiable price column. -/
def B1b : RawBatch :=
  { rows := [{ time := some ⟨9, 31, 0⟩, price := some 10, vol := none,
               amount := none, nature := .na, delta := none }]
    hasTime := true, hasPrice := false, hasVol := false, hasAmount := false,
    hasNature := false, hasDelta := false }

/-- A batch with one labelled in-session row and one after-close row. -/
def B2 : RawBatch :=
  { rows := [
      { time := some ⟨9, 31, 0⟩, price := some 10, vol := none, amount := none,
        nature := .token .buy, delta := none },
      { time := some ⟨15, 0, 1⟩, price := some 10, vol := none, amount := none,
        nature := .token .sell, delta := none }]
    hasTime := true, hasPrice := true, hasVol := false, hasAmount := false,
    hasNature := true, hasDelta := false }

/-- Two rows whose labels are 中性盘 and NA at a flat price: after partial
inference the batch has zero 买盘/卖盘 rows yet `inferred_ratio` is 1/2. -/
def B5c : RawBatch :=
  { rows := [
      { time := some ⟨9, 31, 0⟩, price := some 10, vol := none, amount := none,
        nature := .token .neutral, delta := none },
      { time := some ⟨9, 32, 0⟩, price := some 10, vol := none, amount := none,
        nature := .na, delta := none }]
    hasTime := true, hasPrice := true, hasVol := false, hasAmount := false,
    hasNature := true, hasDelta := false }

/-- Two rows both labelled 中性盘: nothing is partially inferred, so the
degenerate full re-inference fires. -/
def B5w : RawBatch :=
  { rows := [
      { time := some ⟨9, 31, 0⟩, price := some 10, vol := none, amount := none,
        nature := .token .neutral, delta := none },
      { time := some ⟨9, 32, 0⟩, price := some 10, vol := none, amount := none,
        nature := .token .neutral, delta := none }]
    hasTime := true, hasPrice := true, hasVol := false, hasAmount := false,
    hasNature := true, hasDelta := false }

/-- Three rows of which only the first carries a valid label. -/
def B6 : RawBatch :=
  { rows := [
      { time := some ⟨9, 31, 0⟩, price := some 10, vol := none, amount := none,
        nature := .token .buy, delta := none },
      { time := some ⟨9, 32, 0⟩, price := some 10, vol := none, amount := none,
        nature := .na, delta := none },
      { time := some ⟨9, 33, 0⟩, price := some 10, vol := none, amount := none,
        nature := .na, delta := none }]
    hasTime := true, hasPrice := true, hasVol := false, hasAmount := false,
    hasNature := true, hasDelta := false }

/-- Scenario A of the spec: prices 10.0 / 10.1 / 10.05 one minute apart,
no direction-tag column. -/
def B9 : RawBatch :=
  { rows := [
      { time := some ⟨9, 31, 0⟩, price := some 10, vol := none, amount := none,
        nature := .na, delta := none },
      { time := some ⟨9, 32, 0⟩, price := some (101 / 10), vol := none,
        amount := none, nature := .na, delta := none },
      { time := some ⟨9, 33, 0⟩, price := some (201 / 20), vol := none,
        amount := none, nature := .na, delta := none }]
    hasTime := true, hasPrice := true, hasVol := false, hasAmount := false,
    hasNature := false, hasDelta := false }

/-- A two-row classified table with Buy turnover 100 and Sell turnover 50. -/
def T4 : FTable :=
  { rows := [
      { time := none, price := none, nature := some .buy, amount := some 100,
        vol := 0, dir := 0, net := 0, minThr := 0, isLarge := false },
      { time := none, price := none, nature := some .sell, amount := some 50,
        vol := 0, dir := 0, net := 0, minThr := 0, isLarge := false }]
    hasTime := false, hasPrice := false, hasNature := true, hasAmount := true,
    hasVol := false, hasMinThr := false }

/-- A two-row classified table with timestamps, one row in the early
session. -/
def T3 : FTable :=
  { rows := [
      { time := some ⟨9, 31, 0⟩, price := some 10, nature := some .buy,
        amount := some 250000, vol := 1, dir := 0, net := 0, minThr := 0,
        isLarge := false },
      { time := some ⟨13, 5, 0⟩, price := some 10, nature := some .sell,
        amount := some 100, vol := 1, dir := 0, net := 0, minThr := 0,
        isLarge := false }]
    hasTime := true, hasPrice := true, hasNature := true, hasAmount := true,
    hasVol := true, hasMinThr := false }

/-- A one-row clean table in the shape the cleaner hands to the analyzer. -/
def T8 : FTable :=
  { rows := [
      { time := some ⟨9, 31, 0⟩, price := some 10, nature := some .buy,
        amount := some 1000, vol := 100, dir := 0, net := 0, minThr := 0,
        isLarge := false }]
    hasTime := true, hasPrice := true, hasNature := true, hasAmount := true,
    hasVol := true, hasMinThr := false }

/-- A two-row classified table spanning two 5-minute buckets. -/
def T7 : FTable :=
  { rows := [
      { time := some ⟨9, 31, 0⟩, price := some 10, nature := some .buy,
        amount := some 100, vol := 1, dir := 1, net := 100, minThr := 0,
        isLarge := false },
      { time := some ⟨9, 36, 0⟩, price := some 11, nature := some .sell,
        amount := some 200, vol := 2, dir := -1, net := -200, minThr := 0,
        isLarge := false }]
    hasTime := true, hasPrice := true, hasNature := true, hasAmount := true,
    hasVol := true, hasMinThr := false }

/-- A one-row tick list for the detector. -/
def Tick1 : List FRow :=
  [{ time := none, price := none, nature := none, amount := none, vol := 0,
     dir := 0, net := 0, minThr := 0, isLarge := false }]

/-- A one-bar window table for the detector. -/
def Wdf1 : List Bar :=
  [{ key := 114, timeWindow := "09:30", turnover := 100, volume := 1,
     netInflow := 100, buyAmount := 100, sellAmount := 0, largeOrderCount := 0,
     tradeCount := 3, priceOpen := some 10, priceHigh := some 10,
     priceLow := some 10, priceClose := some 10, ofi := 1, vwap := 100,
     rangePct := 0 }]

end StockAnalysis

deriving instance DecidableEq for Except

namespace StockAnalysis

/-! ## Claims C1, C4, C5, C8, C9 -/

/-- C1: for every non-empty input batch in which no timestamp column is
identified after column reconciliation, `clean` returns an empty clean
table, an empty auction table, inferred ratio 0, and exactly the flag list
["missing_time"]; for every batch with a timestamp column but no price
column it returns empty outputs, ratio 0, with "missing_price" among the
flags.  (`clean` is a total function: no exception can be raised.) -/
theorem claim_c1 (b : RawBatch) (hne : b.rows ≠ []) :
    (b.hasTime = false → clean b = ⟨[], ["missing_time"], [], 0⟩) ∧
    (b.hasTime = true → b.hasPrice = false →
      (clean b).main = [] ∧ (clean b).auction = [] ∧
      (clean b).inferredFrac = 0 ∧ "missing_price" ∈ (clean b).flags) := by
  have he : b.rows.isEmpty = false := by
    simpa [List.isEmpty_iff] using hne
  constructor
  · intro ht
    simp [clean, he, ht]
  · intro ht hp
    simp [clean, he, ht, hp]

/-- Witness for C1 at the concrete batches `B1a` and `B1b`. -/
theorem claim_c1_witness :
    clean B1a = ⟨[], ["missing_time"], [], 0⟩ ∧
    "missing_price" ∈ (clean B1b).flags :=
  ⟨(claim_c1 B1a (List.cons_ne_nil _ _)).1 rfl,
   ((claim_c1 B1b (List.cons_ne_nil _ _)).2 rfl rfl).2.2.2⟩

/-- C4 counterexample: on a table whose Buy-direction turnover sums to 100
and Sell-direction turnover to 50, the summary's `ofi` is 1/3 =
(100-50)/(100+50), not the claimed (100-50)/(100+100) = 1/4. -/
theorem claim_c4_counterexample :
    ((analyze 90 200000 T4).toOption.bind (fun r => r.summary)).map
      (fun s => (s.buyAmount, s.sellAmount, s.ofi)) = some (100, 50, 1 / 3) ∧
    (1 / 3 : ℚ) ≠ (100 - 50) / (100 + 100) :=
  ⟨of_decide_eq_true (by with_unfolding_all rfl), by norm_num⟩

/-- A map on rows that changes neither 方向 nor 成交额(元) changes neither
per-direction turnover sums. -/
theorem sumAmtDir_map (f : FRow → FRow) (hd : ∀ r, (f r).dir = r.dir)
    (ha : ∀ r, (f r).amount = r.amount) (rows : List FRow) (d : Int) :
    sumAmtDir (rows.map f) d = sumAmtDir rows d := by
  unfold sumAmtDir
  rw [List.filter_map]
  rw [List.map_map]
  have h1 : (fun r => decide (r.dir = d)) ∘ f = fun r => decide (r.dir = d) := by
    funext r
    simp [hd r]
  have h2 : amtOf ∘ f = amtOf := by
    funext r
    simp [amtOf, ha r]
  rw [h1, h2]

/-- `largeStage` only rewrites `minute_threshold` and `is_large_order`;
direction and turnover are untouched. -/
theorem largeStage_sumAmtDir (perc minA : ℚ) (t : FTable) (d : Int) :
    sumAmtDir (largeStage perc minA t) d = sumAmtDir (amountStage t) d := by
  unfold largeStage
  split
  · apply sumAmtDir_map
    · intro r
      unfold largeMarkT
      cases r.time <;> rfl
    · intro r
      unfold largeMarkT
      cases r.time <;> rfl
  · apply sumAmtDir_map
    · intro r
      rfl
    · intro r
      rfl

/-- C4 amended: the summary's buy/sell amounts are the summed turnover of
the Buy- and Sell-direction records of the processed table, and
`ofi = (buy - sell)/(buy + sell)` when `buy + sell > 0`, else 0 (the
denominator is `buy + sell`, not the claim's `buy + buy`). -/
theorem claim_c4_amended (perc minA : ℚ) (t : FTable) (res : AResult)
    (s : Summary) (h : analyze perc minA t = .ok res)
    (hs : res.summary = some s) :
    s.buyAmount = sumAmtDir res.processed.rows 1 ∧
    s.sellAmount = sumAmtDir res.processed.rows (-1) ∧
    s.ofi = (if s.buyAmount + s.sellAmount > 0
             then (s.buyAmount - s.sellAmount) / (s.buyAmount + s.sellAmount)
             else 0) := by
  unfold analyze at h
  by_cases he : t.rows.isEmpty
  · rw [if_pos he] at h
    cases h
    simp at hs
  · rw [if_neg he] at h
    by_cases hc : (t.hasTime && t.hasMinThr) = true
    · rw [if_pos hc] at h
      exact absurd h (by simp)
    · rw [if_neg hc] at h
      have hres : analyzeCore perc minA t = res := by
        simpa using h
      subst hres
      have hsum : s = summaryOf perc minA t := by
        simpa [analyzeCore] using hs.symm
      subst hsum
      refine ⟨?_, ?_, ?_⟩
      · simp [analyzeCore, summaryOf, largeStage_sumAmtDir]
      · simp [analyzeCore, summaryOf, largeStage_sumAmtDir]
      · simp [summaryOf, ofiOfSums]

/-- Witness for C4's amended claim at the concrete table `T4`. -/
theorem claim_c4_amended_witness :
    analyze 90 200000 T4 = .ok (analyzeCore 90 200000 T4) ∧
    (summaryOf 90 200000 T4).ofi =
      (if (summaryOf 90 200000 T4).buyAmount + (summaryOf 90 200000 T4).sellAmount > 0
       then ((summaryOf 90 200000 T4).buyAmount - (summaryOf 90 200000 T4).sellAmount) /
            ((summaryOf 90 200000 T4).buyAmount + (summaryOf 90 200000 T4).sellAmount)
       else 0) :=
  ⟨rfl, (claim_c4_amended 90 200000 T4 (analyzeCore 90 200000 T4)
          (summaryOf 90 200000 T4) rfl rfl).2.2⟩

/-- C5 counterexample: batch `B5c` is non-empty and, after normalisation
and partial inference, has zero 买盘/卖盘 rows; yet the cleaner keeps ratio
1/2 (not 1.0) and never appends `nature_all_neutral_inferred`, because the
degenerate full re-inference only runs when nothing was inferred at all. -/
theorem claim_c5_counterexample :
    B5c.rows ≠ [] ∧
    (inferredStage B5c).1.countP
      (fun r => decide (r.nature = some .buy ∨ r.nature = some .sell)) = 0 ∧
    "nature_all_neutral_inferred" ∉ (clean B5c).flags ∧
    (clean B5c).inferredFrac = 1 / 2 :=
  of_decide_eq_true (by with_unfolding_all rfl)

/-- Every element produced by `zipWith` is an image of the function. -/
theorem mem_zipWith {f : α → β → γ} {c : γ} :
    ∀ {xs : List α} {ys : List β}, c ∈ List.zipWith f xs ys → ∃ a b2, c = f a b2 := by
  intro xs
  induction xs with
  | nil => intro ys h; simp at h
  | cons x xs ih =>
    intro ys h
    cases ys with
    | nil => simp at h
    | cons y ys =>
      simp only [List.zipWith_cons_cons, List.mem_cons] at h
      rcases h with h | h
      · exact ⟨x, y, h⟩
      · exact ih h

/-- C5 amended: when the batch is non-empty, NOTHING was inferred in the
partial pass (`inferred_ratio` = 0) and the label set has zero 买盘/卖盘
rows, the cleaner re-infers every row (性质来源 `inferred_all`), returns
ratio 1.0 and appends `nature_all_neutral_inferred`. -/
theorem claim_c5_amended (b : RawBatch) (hne : b.rows ≠ [])
    (ht : b.hasTime = true) (hp : b.hasPrice = true)
    (hrows : (inferredStage b).1 ≠ []) (h0 : (inferredStage b).2.1 = 0)
    (hbs : (inferredStage b).1.countP
      (fun r => decide (r.nature = some .buy ∨ r.nature = some .sell)) = 0) :
    (clean b).inferredFrac = 1 ∧
    "nature_all_neutral_inferred" ∈ (clean b).flags ∧
    ∀ r ∈ preSessionRows b, r.natureSource = "inferred_all" := by
  have he : b.rows.isEmpty = false := by
    simpa [List.isEmpty_iff] using hne
  have hcond : (inferredStage b).1.length ≠ 0 ∧ (inferredStage b).2.1 = 0 ∧
      (inferredStage b).1.countP
        (fun r => decide (r.nature = some .buy ∨ r.nature = some .sell)) = 0 :=
    ⟨by simpa [List.length_eq_zero] using hrows, h0, hbs⟩
  have hdeg : degenerateStage b (inferredStage b).1 (inferredStage b).2.1 =
      (applyAll (inferredStage b).1
        (if b.hasDelta then inferDirDelta (inferredStage b).1
         else inferDirPrice (inferredStage b).1),
       1, ["nature_all_neutral_inferred"]) := by
    unfold degenerateStage
    rw [if_pos hcond]
  refine ⟨?_, ?_, ?_⟩
  · simp [clean, he, ht, hp, hdeg]
  · simp [clean, he, ht, hp, hdeg]
  · intro r hr
    unfold preSessionRows at hr
    rw [hdeg] at hr
    obtain ⟨a, d, rfl⟩ := mem_zipWith hr
    rfl

/-- Witness for C5's amended claim at the all-neutral batch `B5w`. -/
theorem claim_c5_amended_witness :
    (clean B5w).inferredFrac = 1 ∧
    "nature_all_neutral_inferred" ∈ (clean B5w).flags :=
  ⟨(claim_c5_amended B5w (List.cons_ne_nil _ _) rfl rfl
      (of_decide_eq_true (by with_unfolding_all rfl))
      (of_decide_eq_true (by with_unfolding_all rfl))
      (of_decide_eq_true (by with_unfolding_all rfl))).1,
   (claim_c5_amended B5w (List.cons_ne_nil _ _) rfl rfl
      (of_decide_eq_true (by with_unfolding_all rfl))
      (of_decide_eq_true (by with_unfolding_all rfl))
      (of_decide_eq_true (by with_unfolding_all rfl))).2.1⟩

/-- C8 (code bug): analyzing the one-row clean table `T8` succeeds, but
re-running the analyzer on the returned `processed_df` raises (the table
already carries a `minute_threshold` column, the merge of `tick_flow.py:91`
suffixes both copies, and line 99 hits a `KeyError`), so the second run
produces no direction labels at all instead of identical ones. -/
theorem claim_c8_second_run_raises :
    ((analyze 90 200000 T8).toOption.map
      (fun r => analyze 90 200000 r.processed)) =
    some (Except.error "KeyError: minute_threshold") :=
  of_decide_eq_true (by with_unfolding_all rfl)

/-- C9 counterexample: on Scenario A's batch (prices 10.0 / 10.1 / 10.05,
no direction tags) the cleaner labels row 3 中性盘, not 卖盘: its 0.495%
fall is below the adaptive threshold max(0.0001, 30th percentile of the
absolute pct-changes) = 653/101000 ≈ 0.647%.  No row is labelled 卖盘. -/
theorem claim_c9_counterexample :
    (clean B9).main.map (fun r => r.nature) =
      [some .neutral, some .buy, some .neutral] ∧
    some Direction.sell ∉ (clean B9).main.map (fun r => r.nature) ∧
    (clean B9).inferredFrac = 1 :=
  of_decide_eq_true (by with_unfolding_all rfl)

/-- C9 amended: on Scenario A's batch the cleaner infers all three labels
(ratio 1.0, 性质来源 `inferred`), labelling row 2 买盘 (its +1% move clears
the adaptive threshold) and rows 1 and 3 中性盘 (row 3's −0.495% move does
not). -/
theorem claim_c9_amended :
    (clean B9).main.map (fun r => r.nature) =
      [some .neutral, some .buy, some .neutral] ∧
    (clean B9).main.map (fun r => r.natureSource) =
      ["inferred", "inferred", "inferred"] ∧
    (clean B9).inferredFrac = 1 :=
  of_decide_eq_true (by with_unfolding_all rfl)

/-! ## Claim C10 -/

/-- `List.getD` at an in-range index is a member. -/
theorem getD_mem : ∀ (l : List ℚ) (i : Nat) (d : ℚ), i < l.length → l.getD i d ∈ l := by
  intro l
  induction l with
  | nil => intro i d h; simp at h
  | cons x xs ih =>
    intro i d h
    cases i with
    | zero => simp [List.getD]
    | succ j =>
      have hj : j < xs.length := by simpa using h
      simpa [List.getD] using Or.inr (by simpa [List.getD] using ih j d hj)

/-- `List.getD` past the end returns the default. -/
theorem getD_default : ∀ (l : List ℚ) (i : Nat) (d : ℚ), l.length ≤ i → l.getD i d = d := by
  intro l
  induction l with
  | nil => intro i d _; simp [List.getD]
  | cons x xs ih =>
    intro i d h
    cases i with
    | zero => simp at h
    | succ j => simpa [List.getD] using ih j d (by simpa using h)

/-- A linear-interpolation quantile of a non-empty list with 0 ≤ q ≤ 1 is
dominated by some element of the list (it is a convex combination of two
order statistics). -/
theorem exists_quantile_le (q : ℚ) (xs : List ℚ) (hx : xs ≠ [])
    (h0 : 0 ≤ q) (h1 : q ≤ 1) : ∃ x ∈ xs, quantileLinear q xs ≤ x := by
  have hne : xs.isEmpty = false := by simpa [List.isEmpty_iff] using hx
  have hperm : List.Perm (List.insertionSort (fun a b => a ≤ b) xs) xs :=
    List.perm_insertionSort _ xs
  set ys := List.insertionSort (fun a b => a ≤ b) xs with hys
  have hylen : ys.length = xs.length := hperm.length_eq
  have hn : 1 ≤ xs.length := by
    cases xs with
    | nil => exact absurd rfl hx
    | cons a l => simp
  set p : ℚ := q * ((xs.length : ℚ) - 1) with hp
  have hp0 : 0 ≤ p := by
    apply mul_nonneg h0
    have : (1 : ℚ) ≤ (xs.length : ℚ) := by exact_mod_cast hn
    linarith
  have hpn : p ≤ (xs.length : ℚ) - 1 := by
    have hcast : (1 : ℚ) ≤ (xs.length : ℚ) := by exact_mod_cast hn
    calc p = q * ((xs.length : ℚ) - 1) := hp
    _ ≤ 1 * ((xs.length : ℚ) - 1) := by
        apply mul_le_mul_of_nonneg_right h1
        linarith
    _ = (xs.length : ℚ) - 1 := by ring
  have hfl0 : 0 ≤ p.floor := Rat.le_floor.mpr (by exact_mod_cast hp0)
  set f : Nat := p.floor.toNat with hf
  have hfc : (f : ℚ) = ((p.floor : ℤ) : ℚ) := by
    rw [hf]
    exact_mod_cast congrArg (fun z => ((z : ℤ) : ℚ)) (Int.toNat_of_nonneg hfl0)
  have hfle : (f : ℚ) ≤ p := by
    rw [hfc]
    exact_mod_cast Rat.le_floor.mp (le_refl p.floor)
  have hflt : p < (f : ℚ) + 1 := by
    by_contra hcon
    push_neg at hcon
    have : p.floor + 1 ≤ p.floor := by
      apply Rat.le_floor.mpr
      push_cast
      rw [← hfc]
      exact_mod_cast hcon
    omega
  have hfn : f < xs.length := by
    have h3 : (f : ℚ) ≤ (xs.length : ℚ) - 1 := le_trans hfle hpn
    have h4 : (f : ℚ) + 1 ≤ (xs.length : ℚ) := by linarith
    have h5 : f + 1 ≤ xs.length := by exact_mod_cast h4
    omega
  set g : ℚ := p - (f : ℚ) with hg
  have hg0 : 0 ≤ g := by rw [hg]; linarith
  have hg1 : g ≤ 1 := by rw [hg]; linarith
  have ha : ys.getD f 0 ∈ xs := hperm.mem_iff.mp (getD_mem ys f 0 (by omega))
  have hquant : quantileLinear q xs =
      ys.getD f 0 + g * (ys.getD (f + 1) (ys.getD f 0) - ys.getD f 0) := by
    unfold quantileLinear
    rw [if_neg (by simp [hne])]
  by_cases hfn1 : f + 1 < xs.length
  · by_cases hab : ys.getD f 0 ≤ ys.getD (f + 1) (ys.getD f 0)
    · have hb : ys.getD (f + 1) (ys.getD f 0) ∈ xs :=
        hperm.mem_iff.mp (getD_mem ys (f + 1) _ (by omega))
      refine ⟨ys.getD (f + 1) (ys.getD f 0), hb, ?_⟩
      rw [hquant]
      nlinarith
    · refine ⟨ys.getD f 0, ha, ?_⟩
      rw [hquant]
      push_neg at hab
      nlinarith
  · refine ⟨ys.getD f 0, ha, ?_⟩
    rw [hquant]
    have hd : ys.getD (f + 1) (ys.getD f 0) = ys.getD f 0 :=
      getD_default ys (f + 1) _ (by omega)
    rw [hd]
    simp

/-- A non-empty window table always contains a trade-count burst row. -/
theorem burstList_ne_nil (wdf : List Bar) (h : wdf ≠ []) : burstList wdf ≠ [] := by
  obtain ⟨x, hx, hle⟩ := exists_quantile_le (95 / 100)
    (wdf.map (fun z => (z.tradeCount : ℚ))) (by simpa using h)
    (by norm_num) (by norm_num)
  obtain ⟨b2, hb2, rfl⟩ := List.mem_map.mp hx
  exact List.ne_nil_of_mem (List.mem_filter.mpr ⟨hb2, by simpa using hle⟩)

/-- A non-empty window table always contains a net-inflow spike row. -/
theorem spikeList_ne_nil (wdf : List Bar) (h : wdf ≠ []) : spikeList wdf ≠ [] := by
  obtain ⟨x, hx, hle⟩ := exists_quantile_le (95 / 100)
    (wdf.map (fun z => |z.netInflow|)) (by simpa using h)
    (by norm_num) (by norm_num)
  obtain ⟨b2, hb2, rfl⟩ := List.mem_map.mp hx
  exact List.ne_nil_of_mem (List.mem_filter.mpr ⟨hb2, by simpa using hle⟩)

/-- C10 (implicit): for every non-empty window table paired with a
non-empty tick table, `detect` returns at least one burst window and
exactly two anomaly notes — the maximal trade count and the maximal
absolute net inflow always reach their own 95th-percentile thresholds, so
even a completely quiet day is reported as containing a burst and a
spike. -/
theorem claim_c10 (tick : List FRow) (wdf : List Bar)
    (h1 : tick ≠ []) (h2 : wdf ≠ []) :
    (detect tick wdf).burstWindows ≠ [] ∧ (detect tick wdf).notes.length = 2 := by
  have hb := burstList_ne_nil wdf h2
  have hs := spikeList_ne_nil wdf h2
  obtain ⟨x, xs2, hx⟩ := List.exists_cons_of_ne_nil hb
  obtain ⟨y, ys2, hy⟩ := List.exists_cons_of_ne_nil hs
  have hcond : (tick.isEmpty || wdf.isEmpty) = false := by
    simp [List.isEmpty_iff, h1, h2]
  constructor
  · unfold detect
    rw [if_neg (by simp [hcond]), hx]
    simp
  · unfold detect
    rw [if_neg (by simp [hcond]), hx, hy]
    simp

/-- Witness for C10 at a concrete one-row tick table and one-bar window
table. -/
theorem claim_c10_witness :
    (detect Tick1 Wdf1).burstWindows ≠ [] ∧ (detect Tick1 Wdf1).notes.length = 2 :=
  claim_c10 Tick1 Wdf1 (List.cons_ne_nil _ _) (List.cons_ne_nil _ _)

/-! ## Claim C7 -/

/-- Splitting a sum of mapped values along a Boolean predicate. -/
theorem sum_filter_split {α : Type} (p : α → Bool) (g : α → ℚ) (xs : List α) :
    ((xs.filter p).map g).sum + ((xs.filter (fun x => !p x)).map g).sum
      = (xs.map g).sum := by
  induction xs with
  | nil => simp
  | cons x xs ih =>
    cases hx : p x <;> simp [List.filter_cons, hx] <;> linarith [ih]

/-- Grouping a sum of mapped values by a key: summing the per-group sums
over a duplicate-free list of keys covering every element gives the total
sum. -/
theorem sum_groups {α : Type} (key : α → Nat) (g : α → ℚ) :
    ∀ ks : List Nat, ks.Nodup → ∀ xs : List α, (∀ x ∈ xs, key x ∈ ks) →
      (ks.map (fun k => ((xs.filter (fun x => decide (key x = k))).map g).sum)).sum
        = (xs.map g).sum := by
  intro ks
  induction ks with
  | nil =>
    intro _ xs hx
    have hxe : xs = [] := by
      cases xs with
      | nil => rfl
      | cons a l => exact absurd (hx a (List.mem_cons_self a l)) (by simp)
    simp [hxe]
  | cons k ks ih =>
    intro hnd xs hx
    have hk : k ∉ ks := (List.nodup_cons.mp hnd).1
    have hnd2 : ks.Nodup := (List.nodup_cons.mp hnd).2
    have hmem : ∀ x ∈ xs.filter (fun x => !decide (key x = k)), key x ∈ ks := by
      intro x hxm
      have h2 := List.mem_filter.mp hxm
      have h4 : key x ≠ k := by simpa using h2.2
      rcases List.mem_cons.mp (hx x h2.1) with h5 | h5
      · exact absurd h5 h4
      · exact h5
    have hih := ih hnd2 (xs.filter (fun x => !decide (key x = k))) hmem
    have hmapeq : ks.map (fun k2 => ((xs.filter (fun x => decide (key x = k2))).map g).sum)
        = ks.map (fun k2 =>
            (((xs.filter (fun x => !decide (key x = k))).filter
              (fun x => decide (key x = k2))).map g).sum) := by
      apply List.map_congr_left
      intro k2 hk2
      have hke : k2 ≠ k := fun h5 => hk (h5 ▸ hk2)
      congr 1
      rw [List.filter_filter]
      congr 1
      apply List.filter_congr
      intro x _
      by_cases h6 : key x = k2
      · simp [h6, hke]
      · simp [h6]
    calc ((k :: ks).map
            (fun k2 => ((xs.filter (fun x => decide (key x = k2))).map g).sum)).sum
        = ((xs.filter (fun x => decide (key x = k))).map g).sum +
            (ks.map (fun k2 => ((xs.filter (fun x => decide (key x = k2))).map g).sum)).sum := by
          simp
      _ = ((xs.filter (fun x => decide (key x = k))).map g).sum +
            ((xs.filter (fun x => !decide (key x = k))).map g).sum := by
          rw [hmapeq, hih]
      _ = (xs.map g).sum := sum_filter_split (fun x => decide (key x = k)) g xs

/-- When every row has a parseable timestamp, pairing the rows with their
timestamps (`dropna(subset=["时间"])`) loses nothing. -/
theorem filterMap_time_pairs (l : List FRow) (hv : ∀ r ∈ l, r.time.isSome = true) :
    ((l.filterMap (fun r => r.time.map (fun tt => (tt, r)))).map (fun p => amtOf p.2))
      = l.map amtOf := by
  induction l with
  | nil => simp
  | cons r l ih =>
    obtain ⟨tt, htt⟩ := Option.isSome_iff_exists.mp (hv r (List.mem_cons_self r l))
    have ih2 := ih (fun x hx => hv x (List.mem_cons_of_mem r hx))
    simp [List.filterMap_cons, htt, ih2]

/-- Specialisation of `sum_groups` to the aggregator's bucketing: summing
per-bucket turnover sums over the distinct buckets gives the total. -/
theorem sum_groups_pairs (w : Nat) (rows : List (Time × FRow)) :
    (((rows.map (fun p => bucketKey w p.1)).dedup).map
      (fun k => ((rows.filter (fun p => decide (bucketKey w p.1 = k))).map
        (fun p => amtOf p.2)).sum)).sum
      = (rows.map (fun p => amtOf p.2)).sum :=
  sum_groups (fun p => bucketKey w p.1) (fun p => amtOf p.2) _
    (List.nodup_dedup _) rows
    (fun x hx => List.mem_dedup.mpr (List.mem_map.mpr ⟨x, hx, rfl⟩))

/-- C7: for every classified table with valid timestamps and every
positive window width, the per-window `turnover` column of the aggregated
table sums to the classified table's total turnover (exactly, over ℚ). -/
theorem claim_c7 (t : FTable) (w : Nat) (hw : 0 < w) (ht : t.hasTime = true)
    (hv : ∀ r ∈ t.rows, r.time.isSome = true) :
    ((aggregate t w).map (fun b2 => b2.turnover)).sum = (t.rows.map amtOf).sum := by
  by_cases he : t.rows.isEmpty
  · have hxe : t.rows = [] := List.isEmpty_iff.mp he
    simp [aggregate, hxe]
  · unfold aggregate
    rw [if_neg (by simp [he, ht])]
    rw [List.map_map]
    have hbar : ((fun b2 => b2.turnover) ∘ barOf w (aggRows t)) = fun k =>
        (((aggRows t).filter (fun p => decide (bucketKey w p.1 = k))).map
          (fun p => amtOf p.2)).sum := by
      funext k
      rfl
    rw [hbar]
    rw [sum_groups_pairs w (aggRows t)]
    have hperm : List.Perm (aggRows t)
        (t.rows.filterMap (fun r => r.time.map (fun tt => (tt, r)))) :=
      List.perm_insertionSort _ _
    rw [(hperm.map (fun p => amtOf p.2)).sum_eq]
    rw [filterMap_time_pairs t.rows hv]

/-- Witness for C7 at the concrete two-row table `T7` with 5-minute
windows. -/
theorem claim_c7_witness :
    0 < 5 ∧ ((aggregate T7 5).map (fun b2 => b2.turnover)).sum
      = (T7.rows.map amtOf).sum :=
  ⟨Nat.succ_pos 4, claim_c7 T7 5 (Nat.succ_pos 4) rfl
    (of_decide_eq_true (by with_unfolding_all rfl))⟩

/-! ## Claim C2 -/

/-- `pctGo` preserves length. -/
theorem pctGo_length (prev : ℚ) : ∀ l : List ℚ, (pctGo prev l).length = l.length := by
  intro l
  induction l generalizing prev with
  | nil => rfl
  | cons q qs ih => simp [pctGo, ih]

/-- `pct_change` preserves length. -/
theorem pctList_length (l : List ℚ) : (pctList l).length = l.length := by
  cases l with
  | nil => rfl
  | cons p ps => simp [pctList, pctGo_length]

/-- A `zipWith` whose function keeps the timestamp keeps the timestamp
column. -/
theorem map_time_zipWith (f : WRow → Option ℚ → WRow)
    (hf : ∀ r o, (f r o).time = r.time) :
    ∀ (xs : List WRow) (ys : List (Option ℚ)), xs.length = ys.length →
      (List.zipWith f xs ys).map (fun r => r.time) = xs.map (fun r => r.time) := by
  intro xs
  induction xs with
  | nil => intro ys _; simp
  | cons x xs ih =>
    intro ys hlen
    cases ys with
    | nil => simp at hlen
    | cons y ys =>
      simp only [List.zipWith_cons_cons, List.map_cons]
      rw [hf, ih ys (by simpa using hlen)]

/-- The extreme-jump stage does not change timestamps. -/
theorem jumpStage_map_time (rows : List WRow) :
    (jumpStage rows).map (fun r => r.time) = rows.map (fun r => r.time) := by
  unfold jumpStage
  by_cases he : rows.isEmpty
  · rw [if_pos he]
  · rw [if_neg he]
    apply map_time_zipWith
    · intro r o
      rfl
    · rw [pctList_length, List.length_map]

/-- Membership in the session-filtered main table forces the in-session,
before-close and non-auction tests. -/
theorem mem_mainRows {rows : List WRow} {r : WRow} (h : r ∈ mainRows rows) :
    inSessionT r.time = true ∧ before1500 r.time = true ∧
      isAuctionT r.time = false := by
  simp only [mainRows] at h
  split at h
  · next hemp =>
    rw [List.isEmpty_iff.mp hemp] at h
    simp at h
  · next hemp =>
    have h1 := List.mem_filter.mp h
    have h2 := List.mem_filter.mp h1.1
    have h3 := List.mem_filter.mp h2.1
    refine ⟨h2.2, h1.2, ?_⟩
    simpa using h3.2

/-- The cleaner's main and auction outputs in terms of the pipeline
stages, on the non-degenerate path. -/
theorem clean_main_auction (b : RawBatch) (hne : b.rows.isEmpty = false)
    (ht : b.hasTime = true) (hp : b.hasPrice = true) :
    (clean b).main = jumpStage (mainRows (preSessionRows b)) ∧
    (clean b).auction = auctionRows (preSessionRows b) := by
  constructor <;> simp [clean, hne, ht, hp, preSessionRows]

/-- C2: every record of the cleaner's main table has a clock time in
09:30–11:30 or 13:00–15:00 (by minute) and is not strictly after 15:00:00,
and is not in the auction window; every record of the auction table has a
clock time in 09:15–09:25; every pre-split record in the auction window
lands in the auction table and shares its timestamp with no main-table
record. -/
theorem claim_c2 (b : RawBatch) (ht : b.hasTime = true) (hp : b.hasPrice = true) :
    (∀ r ∈ (clean b).main,
      ((570 ≤ r.time.hm ∧ r.time.hm ≤ 690) ∨
        (780 ≤ r.time.hm ∧ r.time.hm ≤ 900)) ∧
      (r.time.h < 15 ∨ (r.time.h = 15 ∧ r.time.m = 0 ∧ r.time.s = 0)) ∧
      ¬(555 ≤ r.time.hm ∧ r.time.hm ≤ 565)) ∧
    (∀ r ∈ (clean b).auction, 555 ≤ r.time.hm ∧ r.time.hm ≤ 565) ∧
    (∀ r ∈ preSessionRows b, 555 ≤ r.time.hm ∧ r.time.hm ≤ 565 →
      r ∈ (clean b).auction ∧ ∀ r2 ∈ (clean b).main, r2.time ≠ r.time) := by
  by_cases he : b.rows.isEmpty
  · have hrows : b.rows = [] := List.isEmpty_iff.mp he
    have hpre : preSessionRows b = [] := by
      simp [preSessionRows, degenerateStage, inferredStage, sortedRows,
        filteredRows, hrows, List.insertionSort]
    have hc : clean b = ⟨[], ["empty_tick"], [], 0⟩ := by simp [clean, he]
    rw [hc, hpre]
    exact ⟨by simp, by simp, by simp⟩
  · obtain ⟨hmain, hauc⟩ :=
      clean_main_auction b (by simpa using he) ht hp
    refine ⟨?_, ?_, ?_⟩
    · intro r hr
      rw [hmain] at hr
      have hrt : r.time ∈
          (jumpStage (mainRows (preSessionRows b))).map (fun x => x.time) :=
        List.mem_map_of_mem (fun x => x.time) hr
      rw [jumpStage_map_time] at hrt
      obtain ⟨r2, hr2, ht2⟩ := List.mem_map.mp hrt
      obtain ⟨hs, hb15, hna⟩ := mem_mainRows hr2
      rw [← ht2]
      refine ⟨?_, ?_, ?_⟩
      · simpa [inSessionT] using hs
      · simp [before1500] at hb15
        omega
      · intro hcon
        simp [isAuctionT] at hna
        omega
    · intro r hr
      rw [hauc] at hr
      have h2 := (List.mem_filter.mp hr).2
      simpa [isAuctionT] using h2
    · intro r hr hband
      constructor
      · rw [hauc]
        refine List.mem_filter.mpr ⟨hr, ?_⟩
        simp [isAuctionT]
        omega
      · intro r2 hr2 heq
        rw [hmain] at hr2
        have hrt : r2.time ∈
            (jumpStage (mainRows (preSessionRows b))).map (fun x => x.time) :=
          List.mem_map_of_mem (fun x => x.time) hr2
        rw [jumpStage_map_time] at hrt
        obtain ⟨r3, hr3, ht3⟩ := List.mem_map.mp hrt
        have hs := (mem_mainRows hr3).1
        rw [ht3, heq] at hs
        simp [inSessionT] at hs
        omega

/-- Witness for C2 at the concrete batch `B2` (whose 15:00:01 row is
dropped and whose 09:31 row is retained). -/
theorem claim_c2_witness :
    (clean B2).main ≠ [] ∧
    ∀ r ∈ (clean B2).main,
      ((570 ≤ r.time.hm ∧ r.time.hm ≤ 690) ∨
        (780 ≤ r.time.hm ∧ r.time.hm ≤ 900)) ∧
      (r.time.h < 15 ∨ (r.time.h = 15 ∧ r.time.m = 0 ∧ r.time.s = 0)) ∧
      ¬(555 ≤ r.time.hm ∧ r.time.hm ≤ 565) :=
  ⟨of_decide_eq_true (by with_unfolding_all rfl), (claim_c2 B2 rfl rfl).1⟩

/-! ## Claim C6 -/

/-- Index access through `zipWith`. -/
theorem zipWith_get? {α β γ : Type} (f : α → β → γ) :
    ∀ (xs : List α) (ys : List β) (i : Nat),
      (List.zipWith f xs ys).get? i =
        match xs.get? i, ys.get? i with
        | some a, some b2 => some (f a b2)
        | _, _ => none := by
  intro xs
  induction xs with
  | nil => intro ys i; cases ys <;> cases i <;> simp
  | cons x xs ih =>
    intro ys i
    cases ys with
    | nil => cases i <;> simp
    | cons y ys =>
      cases i with
      | zero => simp
      | succ j => simpa using ih ys j

/-- Every row built by `buildRow` starts with 性质来源 = "raw"
(`tick_cleaner.py:171`). -/
theorem buildRow_source (b : RawBatch) (t0 : Time) (r0 : RawRow) (w : WRow)
    (h : buildRow b t0 r0 = some w) : w.natureSource = "raw" := by
  unfold buildRow at h
  split at h
  · exact Option.noConfusion h
  · split at h
    · split at h
      · exact Option.noConfusion h
      · injection h with h2
        rw [← h2]
    · exact Option.noConfusion h

/-- Every typed row entering the inference stage has 性质来源 = "raw". -/
theorem sortedRows_source (b : RawBatch) :
    ∀ r ∈ sortedRows b, r.natureSource = "raw" := by
  intro r hr
  have hr2 : r ∈ filteredRows b := (List.perm_insertionSort _ _).mem_iff.mp hr
  obtain ⟨a, ha, hbind⟩ := List.mem_filterMap.mp hr2
  obtain ⟨t0, _, hbuild⟩ := Option.bind_eq_some.mp hbind
  exact buildRow_source b t0 a r hbuild

/-- Valid and missing 性质 counts partition the rows. -/
theorem countP_isSome_add_isNone (l : List WRow) :
    l.countP (fun r => r.nature.isSome) + l.countP (fun r => r.nature.isNone)
      = l.length := by
  induction l with
  | nil => simp
  | cons r l ih =>
    rw [List.countP_cons, List.countP_cons]
    cases hopt : r.nature <;> simp [hopt] <;> omega

/-- Partial inference writes "inferred" on exactly the rows whose 性质 was
missing. -/
theorem countP_applyMissing (rows : List WRow) :
    ∀ dirs : List Direction, (∀ r ∈ rows, r.natureSource = "raw") →
      rows.length = dirs.length →
      (applyMissing rows dirs).countP (fun r => r.natureSource == "inferred")
        = rows.countP (fun r => r.nature.isNone) := by
  induction rows with
  | nil => intro dirs _ _; simp [applyMissing]
  | cons r rows ih =>
    intro dirs hraw hlen
    cases dirs with
    | nil => simp at hlen
    | cons d dirs =>
      have hr := hraw r (List.mem_cons_self r rows)
      have ihh := ih dirs (fun x hx => hraw x (List.mem_cons_of_mem r hx))
        (by simpa using hlen)
      by_cases hs : r.nature.isSome
      · have hnn : r.nature.isNone = false := by
          cases hopt : r.nature <;> simp_all
        simp [applyMissing, List.countP_cons, hs, hr, hnn] at ihh ⊢
        simpa [applyMissing] using ihh
      · have hnn : r.nature.isNone = true := by
          cases hopt : r.nature <;> simp_all
        simp [applyMissing, List.countP_cons, hs, hnn] at ihh ⊢
        simpa [applyMissing] using ihh

/-- `applyMissing` preserves the row count. -/
theorem applyMissing_length (rows : List WRow) (dirs : List Direction)
    (hlen : rows.length = dirs.length) :
    (applyMissing rows dirs).length = rows.length := by
  unfold applyMissing
  rw [List.length_zipWith]
  omega

/-- On batches with missing labels, the partial-inference stage is
`applyMissing` with some direction list of matching length, and the ratio
is the missing fraction. -/
theorem inferredStage_spec (b : RawBatch)
    (hmiss : (sortedRows b).countP (fun r => r.nature.isNone) ≠ 0) :
    ∃ dirs : List Direction, dirs.length = (sortedRows b).length ∧
      (inferredStage b).1 = applyMissing (sortedRows b) dirs ∧
      (inferredStage b).2.1 =
        ((sortedRows b).countP (fun r => r.nature.isNone) : ℚ) /
          ((sortedRows b).length : ℚ) := by
  by_cases hd : b.hasDelta = true
  · refine ⟨inferDirDelta (sortedRows b), by simp [inferDirDelta], ?_, ?_⟩
    · simp [inferredStage, hmiss, hd]
    · simp [inferredStage, hmiss, hd]
  · refine ⟨inferDirPrice (sortedRows b), ?_, ?_, ?_⟩
    · simp [inferDirPrice, pctList_length]
    · simp [inferredStage, hmiss, hd]
    · simp [inferredStage, hmiss, hd]

/-- The degenerate stage does nothing when the prior ratio is non-zero. -/
theorem degenerateStage_skip (b : RawBatch) (rows : List WRow) (r0 : ℚ)
    (h : r0 ≠ 0) : degenerateStage b rows r0 = (rows, r0, []) := by
  unfold degenerateStage
  rw [if_neg]
  intro hcon
  exact h hcon.2.1

/-- The cleaner's inferred ratio in terms of the pipeline stages, on the
non-degenerate path. -/
theorem clean_frac_eq (b : RawBatch) (hne : b.rows.isEmpty = false)
    (ht : b.hasTime = true) (hp : b.hasPrice = true) :
    (clean b).inferredFrac =
      (degenerateStage b (inferredStage b).1 (inferredStage b).2.1).2.1 := by
  simp [clean, hne, ht, hp]

/-- The cleaner's flag list in terms of the pipeline stages, on the
non-degenerate path. -/
theorem clean_flags_eq (b : RawBatch) (hne : b.rows.isEmpty = false)
    (ht : b.hasTime = true) (hp : b.hasPrice = true) :
    (clean b).flags =
      (if b.rows.countP (fun r => r.time.isSome) < b.rows.length
       then ["invalid_time"] else []) ++
      (if b.hasVol then ["volume_assumed_hands", "volume_unit_shares"]
       else ["missing_volume"]) ++
      (if !b.hasNature then ["missing_nature"]
       else if (filteredRows b).isEmpty then []
       else if validFracQ (filteredRows b) < 1 / 2 then ["nature_low_quality"]
       else []) ++
      (if validFracQ (filteredRows b) < 1 / 2 then ["nature_low_quality_infer"]
       else []) ++
      (inferredStage b).2.2 ++
      (degenerateStage b (inferredStage b).1 (inferredStage b).2.1).2.2 ++
      (if (mainRows (preSessionRows b)).isEmpty then ["non_trading_time"]
       else []) := by
  simp [clean, hne, ht, hp, preSessionRows]

/-- C6: when the batch reaches labeling with a nature column whose valid
labels cover less than half the rows, the cleaner appends the low-quality
flags and infers only the missing labels: each row with a valid normalised
label is returned unchanged (so it keeps that label, with 性质来源 "raw"),
each row with a missing label gets an inferred label with 性质来源
"inferred", and `inferred_ratio` equals the fraction of rows whose label
was inferred. -/
theorem claim_c6 (b : RawBatch) (hn : b.hasNature = true)
    (ht : b.hasTime = true) (hp : b.hasPrice = true)
    (hne0 : filteredRows b ≠ [])
    (hlow : validFracQ (filteredRows b) < 1 / 2) :
    "nature_low_quality" ∈ (clean b).flags ∧
    "nature_low_quality_infer" ∈ (clean b).flags ∧
    (∀ i r, (sortedRows b).get? i = some r → r.nature.isSome = true →
      (inferredStage b).1.get? i = some r ∧ r.natureSource = "raw") ∧
    (∀ i r, (sortedRows b).get? i = some r → r.nature.isNone = true →
      ∃ r2, (inferredStage b).1.get? i = some r2 ∧
        r2.natureSource = "inferred" ∧ r2.nature.isSome = true) ∧
    (clean b).inferredFrac =
      ((inferredStage b).1.countP (fun r => r.natureSource == "inferred") : ℚ) /
        (((inferredStage b).1.length : ℚ)) := by
  have hb : b.rows ≠ [] := by
    intro h
    exact hne0 (by simp [filteredRows, h])
  have hbe : b.rows.isEmpty = false := by simpa [List.isEmpty_iff] using hb
  have hfe : (filteredRows b).isEmpty = false := by
    simpa [List.isEmpty_iff] using hne0
  have hlen0 : (filteredRows b).length ≠ 0 := by
    simpa [List.length_eq_zero] using hne0
  -- fewer than half the rows are valid, so some label is missing
  have hcnt : (filteredRows b).countP (fun r => r.nature.isSome) <
      (filteredRows b).length := by
    by_contra hcon
    push_neg at hcon
    have hle := List.countP_le_length
      (p := fun r : WRow => r.nature.isSome) (l := filteredRows b)
    have hceq : (filteredRows b).countP (fun r => r.nature.isSome) =
        (filteredRows b).length := le_antisymm hle hcon
    rw [validFracQ, if_neg hlen0, hceq, div_self (by exact_mod_cast hlen0)] at hlow
    norm_num at hlow
  have hsplit : (filteredRows b).countP (fun r => r.nature.isSome) +
      (filteredRows b).countP (fun r => r.nature.isNone) =
      (filteredRows b).length := countP_isSome_add_isNone (filteredRows b)
  have hpermc : ∀ p2 : WRow → Bool,
      (sortedRows b).countP p2 = (filteredRows b).countP p2 :=
    fun p2 => (List.perm_insertionSort _ _).countP_eq p2
  have hslen : (sortedRows b).length = (filteredRows b).length :=
    (List.perm_insertionSort _ _).length_eq
  have hmiss : (sortedRows b).countP (fun r => r.nature.isNone) ≠ 0 := by
    rw [hpermc]
    omega
  obtain ⟨dirs, hdlen, hrows1, hratio1⟩ := inferredStage_spec b hmiss
  have hr1ne : (inferredStage b).2.1 ≠ 0 := by
    rw [hratio1]
    have hm2 : (0 : ℚ) < ((sortedRows b).countP (fun r => r.nature.isNone) : ℚ) := by
      exact_mod_cast Nat.pos_of_ne_zero hmiss
    have hl2 : (0 : ℚ) < ((sortedRows b).length : ℚ) := by
      rw [hslen]
      exact_mod_cast Nat.pos_of_ne_zero hlen0
    positivity
  have hlow2 : validFracQ (filteredRows b) < 2⁻¹ := by
    rw [← one_div]
    exact hlow
  refine ⟨?_, ?_, ?_, ?_, ?_⟩
  · rw [clean_flags_eq b hbe ht hp]
    simp [hn, hfe, hlow2]
  · rw [clean_flags_eq b hbe ht hp]
    simp [hlow2]
  · intro i r hr hs
    have hi : i < (sortedRows b).length := by
      by_contra hcon
      push_neg at hcon
      rw [List.get?_eq_none.mpr hcon] at hr
      exact Option.noConfusion hr
    have hd2 : dirs.get? i = some (dirs.get ⟨i, by omega⟩) :=
      List.get?_eq_get (by omega)
    refine ⟨?_, sortedRows_source b r (List.get?_mem hr)⟩
    rw [hrows1]
    unfold applyMissing
    rw [zipWith_get? _ (sortedRows b) dirs i, hr, hd2]
    simp [hs]
  · intro i r hr hnn
    have hi : i < (sortedRows b).length := by
      by_contra hcon
      push_neg at hcon
      rw [List.get?_eq_none.mpr hcon] at hr
      exact Option.noConfusion hr
    have hdi : i < dirs.length := by omega
    have hd2 : dirs.get? i = some (dirs.get ⟨i, hdi⟩) :=
      List.get?_eq_get hdi
    have hs : r.nature.isSome = false := by
      cases hopt : r.nature <;> simp_all
    have hget : (inferredStage b).1.get? i =
        some { r with natureSource := "inferred", nature := some (dirs.get ⟨i, hdi⟩) } := by
      rw [hrows1]
      unfold applyMissing
      rw [zipWith_get? _ (sortedRows b) dirs i, hr, hd2]
      simp [hs]
    exact ⟨_, hget, rfl, rfl⟩
  · rw [clean_frac_eq b hbe ht hp, degenerateStage_skip b _ _ hr1ne]
    rw [hratio1, hrows1]
    rw [countP_applyMissing (sortedRows b) dirs (sortedRows_source b) hdlen.symm]
    rw [applyMissing_length (sortedRows b) dirs hdlen.symm]

/-- Witness for C6 at the concrete batch `B6` (one valid label out of
three). -/
theorem claim_c6_witness :
    validFracQ (filteredRows B6) < 1 / 2 ∧
    "nature_low_quality" ∈ (clean B6).flags ∧
    (clean B6).inferredFrac = 2 / 3 :=
  ⟨of_decide_eq_true (by with_unfolding_all rfl),
   (claim_c6 B6 rfl rfl rfl (of_decide_eq_true (by with_unfolding_all rfl))
     (of_decide_eq_true (by with_unfolding_all rfl))).1,
   of_decide_eq_true (by with_unfolding_all rfl)⟩

/-! ## Claim C3 -/

/-- `diffGo` preserves length. -/
theorem diffGo_length (prev : Option ℚ) :
    ∀ l : List (Option ℚ), (diffGo prev l).length = l.length := by
  intro l
  induction l generalizing prev with
  | nil => rfl
  | cons q qs ih => simp [diffGo, ih]

/-- `diff().fillna(0)` preserves length. -/
theorem diffList_length (l : List (Option ℚ)) : (diffList l).length = l.length := by
  cases l with
  | nil => rfl
  | cons p ps => simp [diffList, diffGo_length]

/-- Filling a missing 性质 column preserves the row count. -/
theorem natureStage_length (t : FTable) :
    (natureStage t).length = t.rows.length := by
  unfold natureStage
  split <;> simp

/-- The direction mapping preserves the row count. -/
theorem dirStage_length (t : FTable) :
    (dirStage t).length = t.rows.length := by
  unfold dirStage
  rw [List.length_map, natureStage_length]

/-- The price-delta fallback preserves the row count. -/
theorem fallbackStage_length (t : FTable) :
    (fallbackStage t).length = t.rows.length := by
  simp only [fallbackStage]
  split
  · rw [List.length_zipWith, diffList_length, List.length_map, dirStage_length]
    exact Nat.min_self _
  · exact dirStage_length t

/-- The analyzer's row-shaping stages preserve the row count. -/
theorem amountStage_length (t : FTable) :
    (amountStage t).length = t.rows.length := by
  unfold amountStage
  rw [List.length_map, fallbackStage_length]

/-- `largeMarkT` changes neither the timestamp nor the turnover. -/
theorem largeMarkT_time_amount (perc minA : ℚ) (rows : List FRow) (r : FRow) :
    (largeMarkT perc minA rows r).time = r.time ∧
    (largeMarkT perc minA rows r).amount = r.amount := by
  unfold largeMarkT
  cases r.time <;> exact ⟨rfl, rfl⟩

/-- A row map that changes neither timestamps nor turnover leaves every
minute's turnover list unchanged. -/
theorem minuteAmts_map (f : FRow → FRow) (hmt : ∀ r, (f r).time = r.time)
    (ha : ∀ r, (f r).amount = r.amount) (rows : List FRow) (k : Nat) :
    minuteAmts (rows.map f) k = minuteAmts rows k := by
  unfold minuteAmts
  rw [List.filter_map, List.map_map]
  have h1 : ((fun r : FRow => decide (r.time.map Time.hm = some k)) ∘ f)
      = fun r : FRow => decide (r.time.map Time.hm = some k) := by
    funext r
    simp [hmt r]
  have h2 : amtOf ∘ f = amtOf := by
    funext r
    simp [amtOf, ha r]
  rw [h1, h2]

/-- The per-minute turnover lists of the processed table agree with those
the analyzer used to build the thresholds. -/
theorem minuteAmts_largeStage (perc minA : ℚ) (t : FTable)
    (ht : t.hasTime = true) (k : Nat) :
    minuteAmts (largeStage perc minA t) k = minuteAmts (amountStage t) k := by
  unfold largeStage
  rw [if_pos ht]
  exact minuteAmts_map (largeMarkT perc minA (amountStage t))
    (fun r => (largeMarkT_time_amount perc minA (amountStage t) r).1)
    (fun r => (largeMarkT_time_amount perc minA (amountStage t) r).2)
    (amountStage t) k

/-- The turnover column of the processed table agrees with the one the
analyzer used for the day-level threshold. -/
theorem map_amtOf_largeStage (perc minA : ℚ) (t : FTable)
    (ht : t.hasTime = true) :
    (largeStage perc minA t).map amtOf = (amountStage t).map amtOf := by
  unfold largeStage
  rw [if_pos ht, List.map_map]
  have h2 : amtOf ∘ largeMarkT perc minA (amountStage t) = amtOf := by
    funext r
    simp [amtOf, (largeMarkT_time_amount perc minA (amountStage t) r).2]
  rw [h2]

/-- C3: on a classified table with a timestamp column, a processed row
with clock time tt is flagged `is_large_order` exactly when its turnover
reaches the spec's adaptive threshold (the Pth percentile of its own
minute's per-record turnover, floored at the configured minimum, ×1.2 in
09:30–10:30), and the summary's `large_order_threshold` is
max(configured minimum, day-level Pth percentile of per-record
turnover). -/
theorem claim_c3 (perc minA : ℚ) (t : FTable) (res : AResult)
    (ht : t.hasTime = true) (hmt : t.hasMinThr = false) (hne : t.rows ≠ [])
    (h : analyze perc minA t = .ok res) :
    (∀ r ∈ res.processed.rows, ∀ tt, r.time = some tt →
      r.isLarge = decide (amtOf r ≥
        specMinuteThreshold perc minA res.processed.rows tt)) ∧
    (∀ s, res.summary = some s →
      s.largeOrderThreshold =
        max minA (quantileLinear (perc / 100) (res.processed.rows.map amtOf))) := by
  unfold analyze at h
  rw [if_neg (by simpa [List.isEmpty_iff] using hne)] at h
  rw [if_neg (by simp [hmt])] at h
  have hres : analyzeCore perc minA t = res := by simpa using h
  subst hres
  have hrows : (analyzeCore perc minA t).processed.rows = largeStage perc minA t := rfl
  constructor
  · intro r2 hr2 tt htt
    rw [hrows] at hr2
    have hr3 : r2 ∈ (amountStage t).map (largeMarkT perc minA (amountStage t)) := by
      rw [largeStage, if_pos ht] at hr2
      exact hr2
    obtain ⟨r0, hr0, rfl⟩ := List.mem_map.mp hr3
    have htime0 : r0.time = some tt := by
      rw [← (largeMarkT_time_amount perc minA (amountStage t) r0).1]
      exact htt
    have hamt : amtOf (largeMarkT perc minA (amountStage t) r0) = amtOf r0 := by
      simp [amtOf, (largeMarkT_time_amount perc minA (amountStage t) r0).2]
    have hlarge : (largeMarkT perc minA (amountStage t) r0).isLarge =
        decide (amtOf r0 ≥ minuteThr perc minA (amountStage t) tt.hm *
          (if isEarly tt then 6 / 5 else 1)) := by
      simp only [largeMarkT, htime0]
    have hspec : specMinuteThreshold perc minA
          ((analyzeCore perc minA t).processed.rows) tt =
        minuteThr perc minA (amountStage t) tt.hm *
          (if isEarly tt then 6 / 5 else 1) := by
      rw [hrows]
      unfold specMinuteThreshold minuteThr
      rw [show ((largeStage perc minA t).filter
            (fun r => r.time.map Time.hm = some tt.hm)).map amtOf
          = minuteAmts (largeStage perc minA t) tt.hm from rfl]
      rw [minuteAmts_largeStage perc minA t ht]
      congr 1
      by_cases he2 : 570 ≤ tt.hm ∧ tt.hm ≤ 630
      · rw [if_pos he2, if_pos (show isEarly tt = true by simp [isEarly]; omega)]
        norm_num
      · rw [if_neg he2, if_neg (show ¬isEarly tt = true by simp [isEarly]; omega)]
    rw [hlarge, hamt, hspec]
  · intro s hs
    have hs2 : summaryOf perc minA t = s := by
      simpa [analyzeCore] using hs
    subst hs2
    have hth : (summaryOf perc minA t).largeOrderThreshold =
        dayThreshold perc minA (amountStage t) := rfl
    rw [hth, hrows, map_amtOf_largeStage perc minA t ht]
    unfold dayThreshold
    rw [if_neg]
    rw [List.isEmpty_iff, ← List.length_eq_zero, amountStage_length]
    simpa [List.length_eq_zero] using hne

/-- Witness for C3 at the concrete table `T3`. -/
theorem claim_c3_witness :
    analyze 90 200000 T3 = .ok (analyzeCore 90 200000 T3) ∧
    ∀ s, (analyzeCore 90 200000 T3).summary = some s →
      s.largeOrderThreshold = max 200000 (quantileLinear (90 / 100)
        ((analyzeCore 90 200000 T3).processed.rows.map amtOf)) :=
  ⟨rfl, (claim_c3 90 200000 T3 (analyzeCore 90 200000 T3) rfl rfl
    (List.cons_ne_nil _ _) rfl).2⟩

end StockAnalysis
